import Mathlib

/-!
Verification development for the rquickjs-backed JS engine wrapper
(`src/js_engine/rquickjs.rs`).

The wrapper code owns one `rquickjs::Context` and exposes `eval`,
`call_function`, `create_*_value`, `create_object_value` on `Engine`, and
`into_string` plus a `Debug` impl on `Value`.  The concrete script engine
(rquickjs / QuickJS) is an external collaborator: the design document scopes
it out and specifies only the interface the core consumes from it (context
creation, script execution, global-binding lookup, function invocation,
primitive-to-native conversion, persisted-handle save/restore, exception
introspection).  We therefore embed the wrapper faithfully from the Rust
source, over an abstract record `CtxOps` of external-engine operations and a
concrete context state carrying the persistent-handle store, the global
bindings, the pending-exception slot, and an instrumentation counter for
`Persistent::restore` invocations (used to state the laziness claims).
-/

/-- A persisted handle (`rquickjs::Persistent<rquickjs::Value>`), modelled as
an index into the context's persistent store. -/
abbrev Persistent := Nat

/-- Model of a script-native value (`rquickjs::Value`).  Object fields hold
persisted handles to their values, mirroring the heap-reference structure of
engine objects. -/
inductive JSVal where
  | undefined
  | vbool (b : Bool)
  | vint (n : Int)
  | vfloat (bits : Nat)
  | vstr (s : String)
  | vobj (fields : List (String × Persistent))
  | vfunc (fid : Nat)
deriving Repr, DecidableEq

/-- State of one `rquickjs::Context`: the global bindings, the store backing
persisted handles, the engine's pending-exception slot (`ctx.catch()` reads
it; `JSVal.undefined` means none), and a counter of how many times
`Persistent::restore` has run (instrumentation for the laziness property;
the engine itself never reads it). -/
structure CtxState where
  globals : List (String × JSVal)
  heap : List JSVal
  pending : JSVal
  restores : Nat
deriving Repr, DecidableEq

/-- Error kind reported by the external engine (`rquickjs::Error`).  The
wrapper's `error_to_string` distinguishes exactly the `Exception` variant;
every other variant is collapsed into its display text. -/
inductive RqError where
  | exception
  | other (msg : String)
deriving Repr, DecidableEq

/-- The `Display` rendering of an `rquickjs::Error` (the `format!("{e}")`
part of `error_to_string`). -/
def RqError.display : RqError → String
  | .exception => "exception generated by engine"
  | .other msg => msg

/-- The `Debug` rendering (`format!("{:?}", v)`) of a script value, used by
`error_to_string` on the caught pending exception. -/
def jsRepr : JSVal → String
  | .undefined => "undefined"
  | .vbool b => if b then "true" else "false"
  | .vint n => toString n
  | .vfloat bits => "float(" ++ toString bits ++ ")"
  | .vstr s => "\x22" ++ s ++ "\x22"
  | .vobj _ => "[object]"
  | .vfunc fid => "[function " ++ toString fid ++ "]"

/-- Model of `rquickjs::Persistent::save`: persist a live value, extending the store
and returning the fresh handle.  Never touches the restore counter. -/
def saveP (s : CtxState) (v : JSVal) : CtxState × Persistent :=
  ({ s with heap := s.heap ++ [v] }, s.heap.length)

/-- Model of `rquickjs::Persistent::restore`: resolve a persisted handle back into a
live value inside the context; fails on a stale handle.  Always bumps the
restore counter (the attempt itself is what we count). -/
def restoreP (s : CtxState) (p : Persistent) : CtxState × Except RqError JSVal :=
  ({ s with restores := s.restores + 1 },
   match s.heap[p]? with
   | some v => .ok v
   | none => .error (.other "stale handle"))

/-- Interface consumed from the external script engine, as enumerated in the
design document: script execution, global-binding lookup, function
invocation, and the primitive-to-native conversions (`IntoJs`), plus the
string-coercion pair used by `Value::into_string`
(`rquickjs::Value::into_string : Option<rquickjs::String>` followed by
`rquickjs::String::to_string : Result<String>`). -/
structure CtxOps where
  evalJs : CtxState → String → CtxState × Except RqError JSVal
  getGlobalFn : CtxState → String → Except RqError JSVal
  callFn : CtxState → JSVal → List JSVal → CtxState × Except RqError JSVal
  boolIntoJs : Bool → Except RqError JSVal
  intIntoJs : Int → Except RqError JSVal
  floatIntoJs : Nat → Except RqError JSVal
  stringIntoJs : String → Except RqError JSVal
  objIntoJs : CtxState → List (String × Persistent) → Except RqError JSVal
  coerceToJsString : JSVal → Option JSVal
  jsStringToString : JSVal → Except RqError String

/-- Errors: `error.rs` is not part of the provided sources.  Modelled from the spec:
the three-kind error taxonomy of the design document — `InitError` for
construction, `ExecError` for eval / call / value construction, and the
value-level `ConversionError` — with the constructor names the wrapper code
uses (`Error::JsInitError`, `Error::JsExecError`, `Error::JsValueError`),
each carrying one human-readable diagnostic string. -/
inductive Error where
  | JsInitError (msg : String)
  | JsExecError (msg : String)
  | JsValueError (msg : String)
deriving Repr, DecidableEq

/-- Translation of `fn error_to_string(ctx, e)`: for `rquickjs::Error::Exception` it formats
`"{e}: {:?}"` with the context's caught pending exception; every other error
kind is rendered by its plain display text. -/
def error_to_string (s : CtxState) (e : RqError) : String :=
  match e with
  | .exception => RqError.display .exception ++ ": " ++ jsRepr s.pending
  | .other msg => RqError.display (.other msg)

/-- Translation of `pub struct Value<'a>`: holds the persisted handle (`value` field) and a
non-owning reference to the owning context.  In this state-passing embedding
the context is the `CtxState` threaded through each operation, so only the
handle is stored. -/
structure Value where
  value : Persistent
deriving Repr, DecidableEq

/-- Translation of `impl Debug for Value`: `f.debug_struct("Value").field("value", &self.value)`.
Formats only the persisted handle; defined without any access to the context
state and without restoring. -/
def Value.debugFmt (v : Value) : String :=
  "Value \x7b value: " ++ toString v.value ++ " \x7d"

/-- The `Debug` impl seen as a context-threaded operation, to state that
formatting never enters the context: it is pure in the state and total. -/
def Value.debugFmtSt (s : CtxState) (v : Value) : CtxState × String :=
  (s, v.debugFmt)

namespace Engine

/-- Translation of `Engine::eval`: run `ctx.eval(code)` inside the context scope; on engine
failure wrap the formatted diagnostic in `JsExecError`; on success persist
the resulting value and hand back a `Value` holding the fresh handle. -/
def eval (ops : CtxOps) (s : CtxState) (code : String) :
    CtxState × Except Error Value :=
  match ops.evalJs s code with
  | (s', .error e) => (s', .error (.JsExecError (error_to_string s' e)))
  | (s', .ok v) =>
    match saveP s' v with
    | (s'', p) => (s'', .ok ⟨p⟩)

/-- Translation of `Args::push_args(args.map(|v| v.value))`: each persisted argument handle
is restored into the context (the `IntoJs` impl of `Persistent`), in order;
the first failure aborts. -/
def restoreArgs (s : CtxState) : List Value → CtxState × Except RqError (List JSVal)
  | [] => (s, .ok [])
  | v :: rest =>
    match restoreP s v.value with
    | (s', .error e) => (s', .error e)
    | (s', .ok jv) =>
      match restoreArgs s' rest with
      | (s'', .error e) => (s'', .error e)
      | (s'', .ok jvs) => (s'', .ok (jv :: jvs))

/-- Translation of `Engine::call_function`: look up the global binding as a function
(failing if absent or not callable), push the restored arguments in order,
invoke, and persist the returned value; every engine-level failure on the
way is wrapped as `JsExecError` with the formatted diagnostic. -/
def call_function (ops : CtxOps) (s : CtxState) (func_name : String)
    (args : List Value) : CtxState × Except Error Value :=
  match ops.getGlobalFn s func_name with
  | .error e => (s, .error (.JsExecError (error_to_string s e)))
  | .ok f =>
    match restoreArgs s args with
    | (s', .error e) => (s', .error (.JsExecError (error_to_string s' e)))
    | (s', .ok jvs) =>
      match ops.callFn s' f jvs with
      | (s'', .error e) => (s'', .error (.JsExecError (error_to_string s'' e)))
      | (s'', .ok r) =>
        match saveP s'' r with
        | (s3, p) => (s3, .ok ⟨p⟩)

/-- Translation of `Engine::create_bool_value`: `input.into_js(&ctx)` then
`Persistent::save`; conversion failure becomes `JsExecError`. -/
def create_bool_value (ops : CtxOps) (s : CtxState) (input : Bool) :
    CtxState × Except Error Value :=
  match ops.boolIntoJs input with
  | .error e => (s, .error (.JsExecError (error_to_string s e)))
  | .ok v =>
    match saveP s v with
    | (s', p) => (s', .ok ⟨p⟩)

/-- Translation of `Engine::create_int_value`: `input.into_js(&ctx)` then
`Persistent::save`; conversion failure becomes `JsExecError`. -/
def create_int_value (ops : CtxOps) (s : CtxState) (input : Int) :
    CtxState × Except Error Value :=
  match ops.intIntoJs input with
  | .error e => (s, .error (.JsExecError (error_to_string s e)))
  | .ok v =>
    match saveP s v with
    | (s', p) => (s', .ok ⟨p⟩)

/-- Translation of `Engine::create_float_value`: `input.into_js(&ctx)` then
`Persistent::save`; conversion failure becomes `JsExecError`.  The `f64`
payload is carried opaquely as its bit pattern. -/
def create_float_value (ops : CtxOps) (s : CtxState) (input : Nat) :
    CtxState × Except Error Value :=
  match ops.floatIntoJs input with
  | .error e => (s, .error (.JsExecError (error_to_string s e)))
  | .ok v =>
    match saveP s v with
    | (s', p) => (s', .ok ⟨p⟩)

/-- Translation of `Engine::create_string_value`: `input.into_js(&ctx)` then
`Persistent::save`; conversion failure becomes `JsExecError`. -/
def create_string_value (ops : CtxOps) (s : CtxState) (input : String) :
    CtxState × Except Error Value :=
  match ops.stringIntoJs input with
  | .error e => (s, .error (.JsExecError (error_to_string s e)))
  | .ok v =>
    match saveP s v with
    | (s', p) => (s', .ok ⟨p⟩)

end Engine

/-- One insertion step of `std::collections::HashMap`: inserting an existing
key replaces its value in place, a fresh key adds one entry. -/
def hmInsert (m : List (String × α)) (k : String) (v : α) : List (String × α) :=
  if m.any (fun p => p.1 = k) then
    m.map (fun p => if p.1 = k then (k, v) else p)
  else
    m ++ [(k, v)]

/-- Model of `collect::<HashMap<_, _>>()` on a pair iterator: fold the insertions, so
a later pair with an already-seen key overwrites the earlier one.  The hash
map's own iteration order is unspecified; all theorems below read it only
through key lookup. -/
def hmCollect (l : List (String × α)) : List (String × α) :=
  l.foldl (fun m p => hmInsert m p.1 p.2) []

/-- Key lookup in an association list (the observable content of the map). -/
def lookupKey (m : List (String × α)) (k : String) : Option α :=
  match m with
  | [] => none
  | p :: rest => if p.1 = k then some p.2 else lookupKey rest k

namespace Engine

/-- Translation of `Engine::create_object_value`: map each pair to `(key, v.value)` (taking
ownership of the argument handles), collect into a `HashMap`, convert the
map into one script object via `IntoJs`, and persist it; a conversion
failure becomes `JsExecError`. -/
def create_object_value (ops : CtxOps) (s : CtxState)
    (input : List (String × Value)) : CtxState × Except Error Value :=
  match ops.objIntoJs s (hmCollect (input.map (fun kv => (kv.1, kv.2.value)))) with
  | .error e => (s, .error (.JsExecError (error_to_string s e)))
  | .ok v =>
    match saveP s v with
    | (s', p) => (s', .ok ⟨p⟩)

end Engine

/-- Translation of `Value::into_string`: inside the context scope, restore the persisted
handle (failure → `JsValueError`), ask the engine for the value as a string
(`None` → `JsValueError "cannot convert value to string"`), and extract the
host string (failure → `JsValueError`). -/
def Value.into_string (ops : CtxOps) (s : CtxState) (v : Value) :
    CtxState × Except Error String :=
  match restoreP s v.value with
  | (s', .error e) => (s', .error (.JsValueError (error_to_string s' e)))
  | (s', .ok jv) =>
    match ops.coerceToJsString jv with
    | none => (s', .error (.JsValueError "cannot convert value to string"))
    | some js =>
      match ops.jsStringToString js with
      | .error e => (s', .error (.JsValueError (error_to_string s' e)))
      | .ok str => (s', .ok str)

/-- The script engine's own string coercion of a value, as the wrapper
consumes it: the `into_string` / `to_string` pair, collapsed to an optional
host string. -/
def engineStringCoercion (ops : CtxOps) (jv : JSVal) : Option String :=
  match ops.coerceToJsString jv with
  | none => none
  | some js =>
    match ops.jsStringToString js with
    | .error _ => none
    | .ok str => some str

/-- First-some choice on options (the shape `lookupKey` distributes over
list append with). -/
def optOr (a b : Option α) : Option α :=
  match a with
  | some x => some x
  | none => b

/-- A concrete instance of the external-engine interface, used to exercise
the theorems on closed inputs.  Its `evalJs` understands the handful of
scripts the design document's testable properties mention; every other
script is a parse error that sets the pending exception. -/
def demoOps : CtxOps where
  evalJs s code :=
    if code = "1+2" then (s, .ok (.vint 3))
    else if code = "1" then (s, .ok (.vint 1))
    else if code = "function id(x)\x7breturn x;\x7d" then
      ({ s with globals := hmInsert s.globals "id" (.vfunc 0) }, .ok .undefined)
    else
      ({ s with pending := .vstr "SyntaxError: unexpected token" }, .error .exception)
  getGlobalFn s name :=
    match lookupKey s.globals name with
    | some (.vfunc fid) => .ok (.vfunc fid)
    | some _ => .error (.other "value is not a function")
    | none => .error (.other "value is not a function")
  callFn s f args :=
    match f with
    | .vfunc 0 => (s, .ok (args.headD .undefined))
    | _ => (s, .error .exception)
  boolIntoJs b := .ok (.vbool b)
  intIntoJs n := .ok (.vint n)
  floatIntoJs bits := .ok (.vfloat bits)
  stringIntoJs str := .ok (.vstr str)
  objIntoJs _ fields := .ok (.vobj fields)
  coerceToJsString jv :=
    match jv with
    | .vint n => some (.vstr (toString n))
    | .vstr str => some (.vstr str)
    | .vbool b => some (.vstr (if b then "true" else "false"))
    | .undefined => some (.vstr "undefined")
    | _ => none
  jsStringToString jv :=
    match jv with
    | .vstr str => .ok str
    | _ => .error (.other "not a string")

/-- A degenerate instance of the external-engine interface in which every
conversion step fails, used to exercise the error paths of the theorems on
closed inputs. -/
def failOps : CtxOps where
  evalJs s _ := (s, .error (.other "eval failed"))
  getGlobalFn _ _ := .error (.other "value is not a function")
  callFn s _ _ := (s, .error .exception)
  boolIntoJs _ := .error (.other "conversion failed")
  intIntoJs _ := .error (.other "conversion failed")
  floatIntoJs _ := .error (.other "conversion failed")
  stringIntoJs _ := .error (.other "conversion failed")
  objIntoJs _ _ := .error (.other "conversion failed")
  coerceToJsString _ := none
  jsStringToString _ := .error (.other "not a string")

/-- A freshly constructed context: no globals, empty persistent store, no
pending exception. -/
def freshCtx : CtxState :=
  { globals := [], heap := [], pending := .undefined, restores := 0 }

theorem optOr_none (a : Option α) : optOr a none = a := by
  cases a <;> rfl

theorem lookupKey_append (xs ys : List (String × α)) (k : String) :
    lookupKey (xs ++ ys) k = optOr (lookupKey xs k) (lookupKey ys k) := by
  induction xs with
  | nil => simp [lookupKey, optOr]
  | cons p rest ih =>
    by_cases h : p.1 = k <;> simp [lookupKey, h, optOr, ih]

theorem lookupKey_eq_none (m : List (String × α)) (k : String) :
    lookupKey m k = none ↔ k ∉ m.map Prod.fst := by
  induction m with
  | nil => simp [lookupKey]
  | cons p rest ih =>
    by_cases h : p.1 = k
    · simp [lookupKey, h]
    · have hne : k ≠ p.1 := fun hk => h hk.symm
      simp only [lookupKey, if_neg h, ih, List.map_cons, List.mem_cons]
      constructor
      · intro hnk hor
        rcases hor with hor | hor
        · exact hne hor
        · exact hnk hor
      · intro hnk hmem
        exact hnk (Or.inr hmem)

theorem lookupKey_map_replace_of_ne (m : List (String × α)) (a : String) (b : α)
    (k : String) (hak : a ≠ k) :
    lookupKey (m.map (fun p => if p.1 = a then (a, b) else p)) k = lookupKey m k := by
  induction m with
  | nil => rfl
  | cons p rest ih =>
    by_cases hp : p.1 = a
    · simp [lookupKey, hp, hak, ih, fun h : p.1 = k => hak (hp ▸ h)]
    · simp only [List.map_cons, lookupKey, if_neg hp, ih]

theorem lookupKey_map_replace_mem (m : List (String × α)) (a : String) (b : α)
    (k : String) (ha : a ∈ m.map Prod.fst) :
    lookupKey (m.map (fun p => if p.1 = a then (a, b) else p)) k
      = if a = k then some b else lookupKey m k := by
  induction m with
  | nil => simp at ha
  | cons p rest ih =>
    by_cases hp : p.1 = a
    · by_cases hak : a = k
      · simp [lookupKey, hp, hak]
      · rw [List.map_cons, if_pos hp]
        show lookupKey ((a, b) :: _) k = _
        simp only [lookupKey, if_neg hak]
        rw [lookupKey_map_replace_of_ne _ _ _ _ hak]
        have hpk : ¬p.1 = k := fun h => hak (hp ▸ h)
        simp [if_neg hpk]
    · have ha' : a ∈ rest.map Prod.fst := by
        rcases List.mem_map.1 ha with ⟨q, hq, hqa⟩
        rcases List.mem_cons.1 hq with hq1 | hq1
        · exact absurd (hq1 ▸ hqa) hp
        · exact List.mem_map.2 ⟨q, hq1, hqa⟩
      rw [List.map_cons, if_neg hp]
      show lookupKey (p :: _) k = _
      simp only [lookupKey, ih ha']
      by_cases hak : a = k
      · have hpk : ¬p.1 = k := fun h => hp (h.trans hak.symm)
        simp [hak, hpk]
      · simp [hak]

theorem lookupKey_hmInsert (m : List (String × α)) (a : String) (b : α) (k : String) :
    lookupKey (hmInsert m a b) k = if a = k then some b else lookupKey m k := by
  unfold hmInsert
  split
  · next h =>
    have ha : a ∈ m.map Prod.fst := by
      rcases List.any_eq_true.1 h with ⟨p, hp, hpa⟩
      exact List.mem_map.2 ⟨p, hp, of_decide_eq_true hpa⟩
    exact lookupKey_map_replace_mem m a b k ha
  · next h =>
    have ha : a ∉ m.map Prod.fst := by
      intro hmem
      rcases List.mem_map.1 hmem with ⟨p, hp, hpa⟩
      exact h (List.any_eq_true.2 ⟨p, hp, decide_eq_true hpa⟩)
    rw [lookupKey_append]
    by_cases hak : a = k
    · have : lookupKey m k = none := (lookupKey_eq_none m k).2 (hak ▸ ha)
      simp [this, optOr, lookupKey, hak]
    · simp [lookupKey, hak, optOr_none]

theorem lookupKey_foldl_hmInsert (l m : List (String × α)) (k : String) :
    lookupKey (l.foldl (fun acc p => hmInsert acc p.1 p.2) m) k
      = optOr (lookupKey l.reverse k) (lookupKey m k) := by
  induction l generalizing m with
  | nil => simp [lookupKey, optOr]
  | cons p rest ih =>
    rw [List.foldl_cons, ih, List.reverse_cons, lookupKey_append, lookupKey_hmInsert]
    cases hx : lookupKey rest.reverse k
    · by_cases hp : p.1 = k <;> simp [optOr, lookupKey, hp]
    · simp [optOr]

theorem lookupKey_hmCollect (l : List (String × α)) (k : String) :
    lookupKey (hmCollect l) k = lookupKey l.reverse k := by
  rw [hmCollect, lookupKey_foldl_hmInsert]
  cases hx : lookupKey l.reverse k <;> simp [optOr, lookupKey]

theorem keys_hmInsert (m : List (String × α)) (a : String) (b : α) :
    (hmInsert m a b).map Prod.fst =
      if a ∈ m.map Prod.fst then m.map Prod.fst else m.map Prod.fst ++ [a] := by
  unfold hmInsert
  by_cases ha : a ∈ m.map Prod.fst
  · have hany : (m.any fun p => decide (p.1 = a)) = true := by
      rcases List.mem_map.1 ha with ⟨p, hp, hpa⟩
      exact List.any_eq_true.2 ⟨p, hp, decide_eq_true hpa⟩
    rw [if_pos hany, if_pos ha, List.map_map]
    refine List.map_congr_left ?_
    intro p _
    by_cases hp : p.1 = a
    · simp [hp]
    · simp [hp]
  · have hany : (m.any fun p => decide (p.1 = a)) = false := by
      rw [List.any_eq_false]
      intro p hp
      intro hd
      exact ha (List.mem_map.2 ⟨p, hp, of_decide_eq_true hd⟩)
    rw [hany, if_neg ha]
    simp

theorem keys_nodup_hmInsert (m : List (String × α)) (a : String) (b : α)
    (h : (m.map Prod.fst).Nodup) : ((hmInsert m a b).map Prod.fst).Nodup := by
  rw [keys_hmInsert]
  by_cases ha : a ∈ m.map Prod.fst
  · rwa [if_pos ha]
  · rw [if_neg ha]
    simp [List.nodup_append, h, ha]

theorem keys_nodup_foldl_hmInsert (l m : List (String × α))
    (h : (m.map Prod.fst).Nodup) :
    (((l.foldl (fun acc p => hmInsert acc p.1 p.2) m)).map Prod.fst).Nodup := by
  induction l generalizing m with
  | nil => exact h
  | cons p rest ih => exact ih _ (keys_nodup_hmInsert m p.1 p.2 h)

theorem hmCollect_keys_nodup (l : List (String × α)) :
    ((hmCollect l).map Prod.fst).Nodup :=
  keys_nodup_foldl_hmInsert l [] (by simp)

theorem lookupKey_reverse_of_nodup (l : List (String × α))
    (h : (l.map Prod.fst).Nodup) (k : String) :
    lookupKey l.reverse k = lookupKey l k := by
  induction l with
  | nil => rfl
  | cons p rest ih =>
    rw [List.map_cons, List.nodup_cons] at h
    rw [List.reverse_cons, lookupKey_append, ih h.2]
    by_cases hp : p.1 = k
    · have : lookupKey rest k = none :=
        (lookupKey_eq_none rest k).2 (fun hk => h.1 (hp ▸ hk))
      simp [lookupKey, optOr, hp, this]
    · cases hx : lookupKey rest k <;> simp [lookupKey, optOr, hp, hx]

theorem restoreP_saveP (s : CtxState) (v : JSVal) :
    restoreP (saveP s v).1 (saveP s v).2
      = ({ s with heap := s.heap ++ [v], restores := s.restores + 1 }, .ok v) := by
  simp [saveP, restoreP, List.getElem?_concat_length]

theorem restoreArgs_ok (args : List Value) (s : CtxState)
    (h : ∀ a ∈ args, a.value < s.heap.length) :
    Engine.restoreArgs s args
      = ({ s with restores := s.restores + args.length },
         .ok (args.map (fun a => (s.heap[a.value]?).getD .undefined))) := by
  induction args generalizing s with
  | nil => simp [Engine.restoreArgs]
  | cons a rest ih =>
    have ha : a.value < s.heap.length := h a (List.mem_cons_self a rest)
    obtain ⟨jv, hjv⟩ : ∃ jv, s.heap[a.value]? = some jv :=
      ⟨_, List.getElem?_eq_getElem ha⟩
    have hrest : ∀ b ∈ rest, b.value <
        ({ s with restores := s.restores + 1 } : CtxState).heap.length := by
      intro b hb
      exact h b (List.mem_cons_of_mem a hb)
    simp only [Engine.restoreArgs, restoreP, hjv]
    rw [ih _ hrest]
    simp [hjv, Nat.add_assoc, Nat.add_comm 1 rest.length]

/-- A degenerate instance of the external-engine interface whose string
coercion hands back a non-string value, exercising the failing
`to_string` path of `into_string` on closed inputs. -/
def oddOps : CtxOps :=
  { failOps with coerceToJsString := fun _ => some (.vint 0) }

theorem lookupKey_of_mem_nodup (m : List (String × α))
    (h : (m.map Prod.fst).Nodup) (k : String) (w : α)
    (hm : (k, w) ∈ m) : lookupKey m k = some w := by
  induction m with
  | nil => cases hm
  | cons p rest ih =>
    rw [List.map_cons, List.nodup_cons] at h
    rcases List.mem_cons.1 hm with hm1 | hm1
    · rw [← hm1]
      simp [lookupKey]
    · have hpk : ¬p.1 = k := by
        intro hpk
        exact h.1 (hpk ▸ List.mem_map.2 ⟨(k, w), hm1, rfl⟩)
      simp [lookupKey, hpk, ih h.2 hm1]

theorem into_string_saveP (ops : CtxOps) (s : CtxState) (jv : JSVal) (str : String)
    (hc : engineStringCoercion ops jv = some str) :
    (Value.into_string ops { s with heap := s.heap ++ [jv] } ⟨s.heap.length⟩).2
      = .ok str := by
  unfold engineStringCoercion at hc
  split at hc
  · simp at hc
  · rename_i js h1
    split at hc
    · simp at hc
    · rename_i str2 h2
      simp only [Option.some.injEq] at hc
      subst hc
      simp [Value.into_string, restoreP, List.getElem?_concat_length, h1, h2]

theorem eval_ok_into_string (ops : CtxOps) (s s' : CtxState) (code : String)
    (v : JSVal) (str : String)
    (heval : ops.evalJs s code = (s', .ok v))
    (hcoerce : engineStringCoercion ops v = some str) :
    ∃ s1 val, Engine.eval ops s code = (s1, .ok val) ∧
      s1.heap[val.value]? = some v ∧
      (Value.into_string ops s1 val).2 = .ok str := by
  refine ⟨{ s' with heap := s'.heap ++ [v] }, ⟨s'.heap.length⟩, ?_, ?_, ?_⟩
  · simp [Engine.eval, heval, saveP]
  · exact List.getElem?_concat_length s'.heap v
  · exact into_string_saveP ops s' v str hcoerce

/-- Claim C1: for every valid script expression — one the engine's own
evaluation completes successfully, with last-expression value `v` —
`Engine.eval` succeeds and returns a `Value` holding `v`, and converting
that `Value` with `into_string` yields exactly the script engine's own
string coercion of `v` (e.g. eval of "1+2" gives a `Value` whose
`into_string` is "3"). -/
theorem eval_returns_last_value_matching_engine_coercion
    (ops : CtxOps) (s s' : CtxState) (code : String) (v : JSVal) (str : String)
    (heval : ops.evalJs s code = (s', .ok v))
    (hcoerce : engineStringCoercion ops v = some str) :
    ∃ s1 val, Engine.eval ops s code = (s1, .ok val) ∧
      s1.heap[val.value]? = some v ∧
      (Value.into_string ops s1 val).2 = .ok str :=
  eval_ok_into_string ops s s' code v str heval hcoerce

theorem eval_returns_last_value_matching_engine_coercion_witness :
    demoOps.evalJs freshCtx "1+2" = (freshCtx, .ok (.vint 3)) ∧
    engineStringCoercion demoOps (.vint 3) = some "3" ∧
    ∃ s1 val, Engine.eval demoOps freshCtx "1+2" = (s1, .ok val) ∧
      s1.heap[val.value]? = some (.vint 3) ∧
      (Value.into_string demoOps s1 val).2 = .ok "3" :=
  ⟨rfl, rfl,
    eval_returns_last_value_matching_engine_coercion demoOps freshCtx freshCtx
      "1+2" (.vint 3) "3" rfl rfl⟩

/-- Claim C5: `error_to_string` renders an uncaught-exception fault as the
generic error description followed by the engine's caught pending-exception
state (so the diagnostic includes the exception detail), and renders every
non-exception fault kind by the generic description alone. -/
theorem error_to_string_exception_detail (s : CtxState) :
    error_to_string s .exception
        = RqError.display .exception ++ ": " ++ jsRepr s.pending ∧
    (∃ pre, error_to_string s .exception = pre ++ jsRepr s.pending) ∧
    ∀ msg, error_to_string s (.other msg) = RqError.display (.other msg) :=
  ⟨rfl, ⟨RqError.display .exception ++ ": ", rfl⟩, fun _ => rfl⟩

/-- Claim C9: producing the `Debug` representation of a `Value` is a total
function of the persisted handle alone — viewed as a context-threaded
operation it returns the state untouched (no restore, no context entry) and
always produces the string, never an error. -/
theorem value_debug_infallible (s : CtxState) (v : Value) :
    Value.debugFmtSt s v = (s, v.debugFmt) ∧
    (Value.debugFmtSt s v).1 = s ∧
    (Value.debugFmtSt s v).1.restores = s.restores ∧
    v.debugFmt = "Value \x7b value: " ++ toString v.value ++ " \x7d" :=
  ⟨rfl, rfl, rfl, rfl⟩

/-- Claim C2: `call_function` fails with an `ExecError` whenever the global
binding lookup reports the name absent or not callable; otherwise it invokes
the found function synchronously with the restored arguments in their
original order (an empty list is allowed) and returns the function's return
value persisted as a new `Value`. -/
theorem call_function_absent_or_invokes_in_order
    (ops : CtxOps) (s : CtxState) (name : String) (args : List Value) :
    (∀ e, ops.getGlobalFn s name = .error e →
      Engine.call_function ops s name args
        = (s, .error (.JsExecError (error_to_string s e)))) ∧
    (∀ f s2 r, ops.getGlobalFn s name = .ok f →
      (∀ a ∈ args, a.value < s.heap.length) →
      ops.callFn { s with restores := s.restores + args.length } f
          (args.map (fun a => (s.heap[a.value]?).getD .undefined)) = (s2, .ok r) →
      Engine.call_function ops s name args
        = ({ s2 with heap := s2.heap ++ [r] }, .ok ⟨s2.heap.length⟩)) := by
  constructor
  · intro e he
    simp [Engine.call_function, he]
  · intro f s2 r hf hargs hcall
    simp only [Engine.call_function, hf]
    rw [restoreArgs_ok args s hargs]
    simp [hcall, saveP]

theorem call_function_absent_or_invokes_in_order_witness :
    (demoOps.getGlobalFn freshCtx "missing_fn"
        = .error (.other "value is not a function") ∧
      Engine.call_function demoOps freshCtx "missing_fn" []
        = (freshCtx,
           .error (.JsExecError "value is not a function"))) ∧
    Engine.call_function demoOps
        { globals := [("id", .vfunc 0)], heap := [.vint 7],
          pending := .undefined, restores := 0 } "id" [⟨0⟩]
      = ({ globals := [("id", .vfunc 0)], heap := [.vint 7, .vint 7],
           pending := .undefined, restores := 1 }, .ok ⟨1⟩) :=
  ⟨⟨rfl,
    (call_function_absent_or_invokes_in_order demoOps freshCtx "missing_fn" []).1
      (.other "value is not a function") rfl⟩,
   (call_function_absent_or_invokes_in_order demoOps
      { globals := [("id", .vfunc 0)], heap := [.vint 7],
        pending := .undefined, restores := 0 } "id" [⟨0⟩]).2
     (.vfunc 0)
     { globals := [("id", .vfunc 0)], heap := [.vint 7],
       pending := .undefined, restores := 1 }
     (.vint 7) rfl (by decide) rfl⟩

/-- Claim C7: each of the four primitive creators converts exactly one host
primitive through the engine's `IntoJs` step and persists the single
resulting script value; it succeeds exactly when that underlying conversion
step succeeds, and surfaces the conversion's engine-level error as an
`ExecError` otherwise. -/
theorem create_primitive_values_spec (ops : CtxOps) (s : CtxState) :
    (∀ b v, ops.boolIntoJs b = .ok v →
      Engine.create_bool_value ops s b
        = ({ s with heap := s.heap ++ [v] }, .ok ⟨s.heap.length⟩)) ∧
    (∀ b e, ops.boolIntoJs b = .error e →
      Engine.create_bool_value ops s b
        = (s, .error (.JsExecError (error_to_string s e)))) ∧
    (∀ n v, ops.intIntoJs n = .ok v →
      Engine.create_int_value ops s n
        = ({ s with heap := s.heap ++ [v] }, .ok ⟨s.heap.length⟩)) ∧
    (∀ n e, ops.intIntoJs n = .error e →
      Engine.create_int_value ops s n
        = (s, .error (.JsExecError (error_to_string s e)))) ∧
    (∀ x v, ops.floatIntoJs x = .ok v →
      Engine.create_float_value ops s x
        = ({ s with heap := s.heap ++ [v] }, .ok ⟨s.heap.length⟩)) ∧
    (∀ x e, ops.floatIntoJs x = .error e →
      Engine.create_float_value ops s x
        = (s, .error (.JsExecError (error_to_string s e)))) ∧
    (∀ t v, ops.stringIntoJs t = .ok v →
      Engine.create_string_value ops s t
        = ({ s with heap := s.heap ++ [v] }, .ok ⟨s.heap.length⟩)) ∧
    (∀ t e, ops.stringIntoJs t = .error e →
      Engine.create_string_value ops s t
        = (s, .error (.JsExecError (error_to_string s e)))) := by
  refine ⟨?_, ?_, ?_, ?_, ?_, ?_, ?_, ?_⟩ <;> intro x y h
  · simp [Engine.create_bool_value, h, saveP]
  · simp [Engine.create_bool_value, h]
  · simp [Engine.create_int_value, h, saveP]
  · simp [Engine.create_int_value, h]
  · simp [Engine.create_float_value, h, saveP]
  · simp [Engine.create_float_value, h]
  · simp [Engine.create_string_value, h, saveP]
  · simp [Engine.create_string_value, h]

theorem create_primitive_values_spec_witness :
    Engine.create_bool_value demoOps freshCtx true
      = ({ freshCtx with heap := [.vbool true] }, .ok ⟨0⟩) ∧
    Engine.create_int_value demoOps freshCtx 5
      = ({ freshCtx with heap := [.vint 5] }, .ok ⟨0⟩) ∧
    Engine.create_float_value demoOps freshCtx 4614256656552045848
      = ({ freshCtx with heap := [.vfloat 4614256656552045848] }, .ok ⟨0⟩) ∧
    Engine.create_string_value demoOps freshCtx "hi"
      = ({ freshCtx with heap := [.vstr "hi"] }, .ok ⟨0⟩) ∧
    Engine.create_bool_value failOps freshCtx true
      = (freshCtx, .error (.JsExecError "conversion failed")) ∧
    Engine.create_int_value failOps freshCtx 5
      = (freshCtx, .error (.JsExecError "conversion failed")) ∧
    Engine.create_float_value failOps freshCtx 0
      = (freshCtx, .error (.JsExecError "conversion failed")) ∧
    Engine.create_string_value failOps freshCtx "hi"
      = (freshCtx, .error (.JsExecError "conversion failed")) :=
  ⟨(create_primitive_values_spec demoOps freshCtx).1 true (.vbool true) rfl,
   (create_primitive_values_spec demoOps freshCtx).2.2.1 5 (.vint 5) rfl,
   (create_primitive_values_spec demoOps freshCtx).2.2.2.2.1
     4614256656552045848 (.vfloat 4614256656552045848) rfl,
   (create_primitive_values_spec demoOps freshCtx).2.2.2.2.2.2.1 "hi" (.vstr "hi") rfl,
   (create_primitive_values_spec failOps freshCtx).2.1 true
     (.other "conversion failed") rfl,
   (create_primitive_values_spec failOps freshCtx).2.2.2.1 5
     (.other "conversion failed") rfl,
   (create_primitive_values_spec failOps freshCtx).2.2.2.2.2.1 0
     (.other "conversion failed") rfl,
   (create_primitive_values_spec failOps freshCtx).2.2.2.2.2.2.2 "hi"
     (.other "conversion failed") rfl⟩

/-- Claim C3: `create_object_value` collects the pairs into the unordered
key-to-value map and builds one script-native object from it, persisting the
result; when the keys are pairwise distinct the map carries exactly one
property per input pair (each key bound to that pair's value handle, no
extra keys), and any failure of the underlying conversion step surfaces as
an `ExecError`. -/
theorem create_object_value_one_property_per_pair
    (ops : CtxOps) (s : CtxState) (input : List (String × Value)) :
    (∀ e, ops.objIntoJs s (hmCollect (input.map (fun kv => (kv.1, kv.2.value)))) = .error e →
      Engine.create_object_value ops s input
        = (s, .error (.JsExecError (error_to_string s e)))) ∧
    (∀ v, ops.objIntoJs s (hmCollect (input.map (fun kv => (kv.1, kv.2.value)))) = .ok v →
      Engine.create_object_value ops s input
        = ({ s with heap := s.heap ++ [v] }, .ok ⟨s.heap.length⟩)) ∧
    ((input.map Prod.fst).Nodup →
      ∀ k val, (k, val) ∈ input →
        lookupKey (hmCollect (input.map (fun kv => (kv.1, kv.2.value)))) k
          = some val.value) ∧
    (∀ k, lookupKey (hmCollect (input.map (fun kv => (kv.1, kv.2.value)))) k ≠ none →
      k ∈ input.map Prod.fst) := by
  have hkeys : (input.map (fun kv => (kv.1, kv.2.value))).map Prod.fst
      = input.map Prod.fst := by
    rw [List.map_map]
    rfl
  refine ⟨?_, ?_, ?_, ?_⟩
  · intro e he
    simp [Engine.create_object_value, he]
  · intro v hv
    simp [Engine.create_object_value, hv, saveP]
  · intro hnd k val hmem
    have hnd' : ((input.map (fun kv => (kv.1, kv.2.value))).map Prod.fst).Nodup := by
      rw [hkeys]; exact hnd
    rw [lookupKey_hmCollect, lookupKey_reverse_of_nodup _ hnd']
    exact lookupKey_of_mem_nodup _ hnd' k val.value
      (List.mem_map.2 ⟨(k, val), hmem, rfl⟩)
  · intro k hk
    rw [lookupKey_hmCollect] at hk
    have : k ∈ ((input.map (fun kv => (kv.1, kv.2.value))).reverse.map Prod.fst) := by
      by_contra hmem
      exact hk ((lookupKey_eq_none _ k).2 hmem)
    rw [List.map_reverse, List.mem_reverse, hkeys] at this
    exact this

theorem create_object_value_one_property_per_pair_witness :
    Engine.create_object_value demoOps freshCtx [("a", ⟨0⟩), ("b", ⟨1⟩)]
      = ({ freshCtx with heap := [.vobj [("a", 0), ("b", 1)]] }, .ok ⟨0⟩) ∧
    lookupKey (hmCollect ([("a", (⟨0⟩ : Value)), ("b", ⟨1⟩)].map
        (fun kv => (kv.1, kv.2.value)))) "a" = some 0 ∧
    Engine.create_object_value failOps freshCtx [("a", ⟨0⟩)]
      = (freshCtx, .error (.JsExecError "conversion failed")) :=
  ⟨(create_object_value_one_property_per_pair demoOps freshCtx
      [("a", ⟨0⟩), ("b", ⟨1⟩)]).2.1 (.vobj [("a", 0), ("b", 1)]) rfl,
   (create_object_value_one_property_per_pair demoOps freshCtx
      [("a", ⟨0⟩), ("b", ⟨1⟩)]).2.2.1 (by decide) "a" ⟨0⟩ (by decide),
   (create_object_value_one_property_per_pair failOps freshCtx
      [("a", ⟨0⟩)]).1 (.other "conversion failed") rfl⟩

/-- Claim C10: because `create_object_value` collects its pairs into an
unordered hash map before conversion, a duplicated key yields one property
per distinct key and the value of the last pair bearing that key wins: a
key's entry in the collected map is its last occurrence in the pair
sequence (reverse lookup), the collected keys are duplicate-free, a key is
present exactly when it occurs in the input, and `create_object_value`
consumes exactly that collected map. -/
theorem create_object_value_duplicate_last_wins
    (l : List (String × Persistent)) (k : String) :
    lookupKey (hmCollect l) k = lookupKey l.reverse k ∧
    (∀ (l1 : List (String × Persistent)) (v : Persistent),
      lookupKey (hmCollect (l1 ++ [(k, v)])) k = some v) ∧
    ((hmCollect l).map Prod.fst).Nodup ∧
    (lookupKey (hmCollect l) k = none ↔ k ∉ l.map Prod.fst) ∧
    (∀ ops s input,
      Engine.create_object_value ops s input
        = match ops.objIntoJs s
            (hmCollect (input.map (fun kv => (kv.1, kv.2.value)))) with
          | .error e => (s, .error (.JsExecError (error_to_string s e)))
          | .ok v => ({ s with heap := s.heap ++ [v] }, .ok ⟨s.heap.length⟩)) := by
  refine ⟨lookupKey_hmCollect l k, ?_, hmCollect_keys_nodup l, ?_, ?_⟩
  · intro l1 v
    rw [lookupKey_hmCollect, List.reverse_append]
    simp [lookupKey]
  · rw [lookupKey_hmCollect, lookupKey_eq_none, List.map_reverse, List.mem_reverse]
  · intro ops s input
    cases hv : ops.objIntoJs s (hmCollect (input.map (fun kv => (kv.1, kv.2.value)))) with
    | error e => simp [Engine.create_object_value, hv]
    | ok v => simp [Engine.create_object_value, hv, saveP]

/-- Claim C6: `into_string` resolves the persisted handle lazily inside the
consuming operation — exactly one restore per invocation, and none at
`Value` construction — and fails with a `ConversionError` (`JsValueError`)
exactly in the three underlying failure cases: the handle does not resolve,
the resolved value is not string-convertible, or the extraction of the host
string fails; when the engine's own coercion succeeds, so does
`into_string`, with the same string. -/
theorem into_string_lazy_restore_and_conversion_errors
    (ops : CtxOps) (s : CtxState) (v : Value) :
    ((Value.into_string ops s v).1.restores = s.restores + 1) ∧
    (s.heap[v.value]? = none →
      (Value.into_string ops s v).2 = .error (.JsValueError "stale handle")) ∧
    (∀ jv, s.heap[v.value]? = some jv → ops.coerceToJsString jv = none →
      (Value.into_string ops s v).2
        = .error (.JsValueError "cannot convert value to string")) ∧
    (∀ jv js e, s.heap[v.value]? = some jv → ops.coerceToJsString jv = some js →
      ops.jsStringToString js = .error e →
      (Value.into_string ops s v).2
        = .error (.JsValueError
            (error_to_string { s with restores := s.restores + 1 } e))) ∧
    (∀ jv str, s.heap[v.value]? = some jv → engineStringCoercion ops jv = some str →
      (Value.into_string ops s v).2 = .ok str) ∧
    (∀ n : Int, (Engine.create_int_value ops s n).1.restores = s.restores) := by
  refine ⟨?_, ?_, ?_, ?_, ?_, ?_⟩
  · unfold Value.into_string restoreP
    cases hx : s.heap[v.value]? with
    | none => simp [hx]
    | some jv =>
      cases hy : ops.coerceToJsString jv with
      | none => simp [hx, hy]
      | some js =>
        cases hz : ops.jsStringToString js with
        | error e => simp [hx, hy, hz]
        | ok str => simp [hx, hy, hz]
  · intro hx
    simp [Value.into_string, restoreP, hx, error_to_string, RqError.display]
  · intro jv hx hy
    simp [Value.into_string, restoreP, hx, hy]
  · intro jv js e hx hy hz
    simp [Value.into_string, restoreP, hx, hy, hz]
  · intro jv str hx hc
    unfold engineStringCoercion at hc
    split at hc
    · simp at hc
    · rename_i js h1
      split at hc
      · simp at hc
      · rename_i str2 h2
        simp only [Option.some.injEq] at hc
        subst hc
        simp [Value.into_string, restoreP, hx, h1, h2]
  · intro n
    cases hn : ops.intIntoJs n with
    | error e => simp [Engine.create_int_value, hn]
    | ok jv => simp [Engine.create_int_value, hn, saveP]

theorem into_string_lazy_restore_and_conversion_errors_witness :
    (Value.into_string demoOps
        { globals := [], heap := [.vint 5, .vfunc 0], pending := .undefined,
          restores := 0 } ⟨7⟩).2 = .error (.JsValueError "stale handle") ∧
    (Value.into_string demoOps
        { globals := [], heap := [.vint 5, .vfunc 0], pending := .undefined,
          restores := 0 } ⟨1⟩).2
      = .error (.JsValueError "cannot convert value to string") ∧
    (Value.into_string oddOps
        { globals := [], heap := [.vint 5, .vfunc 0], pending := .undefined,
          restores := 0 } ⟨0⟩).2 = .error (.JsValueError "not a string") ∧
    (Value.into_string demoOps
        { globals := [], heap := [.vint 5, .vfunc 0], pending := .undefined,
          restores := 0 } ⟨0⟩).2 = .ok "5" ∧
    (Value.into_string demoOps
        { globals := [], heap := [.vint 5, .vfunc 0], pending := .undefined,
          restores := 0 } ⟨0⟩).1.restores = 1 ∧
    (Engine.create_int_value demoOps
        { globals := [], heap := [.vint 5, .vfunc 0], pending := .undefined,
          restores := 0 } 42).1.restores = 0 :=
  ⟨(into_string_lazy_restore_and_conversion_errors demoOps
      { globals := [], heap := [.vint 5, .vfunc 0], pending := .undefined,
        restores := 0 } ⟨7⟩).2.1 rfl,
   (into_string_lazy_restore_and_conversion_errors demoOps
      { globals := [], heap := [.vint 5, .vfunc 0], pending := .undefined,
        restores := 0 } ⟨1⟩).2.2.1 (.vfunc 0) rfl rfl,
   (into_string_lazy_restore_and_conversion_errors oddOps
      { globals := [], heap := [.vint 5, .vfunc 0], pending := .undefined,
        restores := 0 } ⟨0⟩).2.2.2.1 (.vint 5) (.vint 0)
     (.other "not a string") rfl rfl rfl,
   (into_string_lazy_restore_and_conversion_errors demoOps
      { globals := [], heap := [.vint 5, .vfunc 0], pending := .undefined,
        restores := 0 } ⟨0⟩).2.2.2.2.1 (.vint 5) "5" rfl rfl,
   (into_string_lazy_restore_and_conversion_errors demoOps
      { globals := [], heap := [.vint 5, .vfunc 0], pending := .undefined,
        restores := 0 } ⟨0⟩).1,
   (into_string_lazy_restore_and_conversion_errors demoOps
      { globals := [], heap := [.vint 5, .vfunc 0], pending := .undefined,
        restores := 0 } ⟨0⟩).2.2.2.2.2 42⟩

/-- Claim C4: an operation's failure is local and does not poison the
context: whenever the engine's own evaluation of some source fails,
`Engine.eval` surfaces exactly an `ExecError` built from that failure and
hands back the engine state the failing evaluation left (adding no mutation
of its own), and a subsequent `eval` on the same engine of any expression
the engine then evaluates successfully — such as "1" — succeeds and
converts to the engine's string for it. -/
theorem eval_failure_is_local
    (ops : CtxOps) (s s1 s2 : CtxState) (bad good : String)
    (e : RqError) (v : JSVal) (str : String)
    (hbad : ops.evalJs s bad = (s1, .error e))
    (hgood : ops.evalJs s1 good = (s2, .ok v))
    (hcoerce : engineStringCoercion ops v = some str) :
    Engine.eval ops s bad = (s1, .error (.JsExecError (error_to_string s1 e))) ∧
    ∃ s3 val, Engine.eval ops s1 good = (s3, .ok val) ∧
      (Value.into_string ops s3 val).2 = .ok str := by
  constructor
  · simp [Engine.eval, hbad]
  · rcases eval_ok_into_string ops s1 s2 good v str hgood hcoerce with
      ⟨s3, val, h1, _, h3⟩
    exact ⟨s3, val, h1, h3⟩

theorem eval_failure_is_local_witness :
    demoOps.evalJs freshCtx "not valid js ("
      = ({ freshCtx with pending := .vstr "SyntaxError: unexpected token" },
         .error .exception) ∧
    Engine.eval demoOps freshCtx "not valid js ("
      = ({ freshCtx with pending := .vstr "SyntaxError: unexpected token" },
         .error (.JsExecError
           ("exception generated by engine: \x22SyntaxError: unexpected token\x22"))) ∧
    ∃ s3 val,
      Engine.eval demoOps
        { freshCtx with pending := .vstr "SyntaxError: unexpected token" } "1"
        = (s3, .ok val) ∧
      (Value.into_string demoOps s3 val).2 = .ok "1" :=
  ⟨rfl,
   (eval_failure_is_local demoOps freshCtx
      { freshCtx with pending := .vstr "SyntaxError: unexpected token" }
      { freshCtx with pending := .vstr "SyntaxError: unexpected token" }
      "not valid js (" "1" .exception (.vint 1) "1" rfl rfl rfl).1,
   (eval_failure_is_local demoOps freshCtx
      { freshCtx with pending := .vstr "SyntaxError: unexpected token" }
      { freshCtx with pending := .vstr "SyntaxError: unexpected token" }
      "not valid js (" "1" .exception (.vint 1) "1" rfl rfl rfl).2⟩

/-- Claim C8: round-trip of an integer through the engine: after an `eval`
that defines the identity function `id`, invoking
`call_function "id" [create_int_value 42]` hands the created number 42
through the restored-argument path and back, and the returned `Value`'s
`into_string` is "42" — given the engine's specified behavior at each
interface step (the eval defines `id`, `42` converts to the number 42, the
global lookup finds the function, applying it returns its argument, and the
engine's string coercion of number 42 is "42"). -/
theorem round_trip_int_42
    (ops : CtxOps) (s0 s1 s2 : CtxState) (v0 f : JSVal)
    (heval : ops.evalJs s0 "function id(x)\x7breturn x;\x7d" = (s1, .ok v0))
    (hint : ops.intIntoJs 42 = .ok (.vint 42))
    (hget : ops.getGlobalFn { s1 with heap := s1.heap ++ [v0, .vint 42] } "id"
      = .ok f)
    (hcall : ops.callFn
        { s1 with heap := s1.heap ++ [v0, .vint 42], restores := s1.restores + 1 }
        f [.vint 42] = (s2, .ok (.vint 42)))
    (hcoerce : engineStringCoercion ops (.vint 42) = some "42") :
    ∃ sA val0 sB v42 sD ret,
      Engine.eval ops s0 "function id(x)\x7breturn x;\x7d" = (sA, .ok val0) ∧
      Engine.create_int_value ops sA 42 = (sB, .ok v42) ∧
      Engine.call_function ops sB "id" [v42] = (sD, .ok ret) ∧
      (Value.into_string ops sD ret).2 = .ok "42" := by
  have hA : Engine.eval ops s0 "function id(x)\x7breturn x;\x7d"
      = ({ s1 with heap := s1.heap ++ [v0] }, .ok ⟨s1.heap.length⟩) := by
    simp [Engine.eval, heval, saveP]
  have hB : Engine.create_int_value ops { s1 with heap := s1.heap ++ [v0] } 42
      = ({ s1 with heap := s1.heap ++ [v0, .vint 42] }, .ok ⟨s1.heap.length + 1⟩) := by
    simp [Engine.create_int_value, hint, saveP]
  have hargs : ∀ a ∈ [(⟨s1.heap.length + 1⟩ : Value)],
      a.value < ({ s1 with heap := s1.heap ++ [v0, .vint 42] } : CtxState).heap.length := by
    intro a ha
    rw [List.mem_singleton] at ha
    subst ha
    show s1.heap.length + 1 < (s1.heap ++ [v0, .vint 42]).length
    have hlen : (s1.heap ++ [v0, .vint 42]).length = s1.heap.length + 2 := by
      simp
    omega
  have hidx : (({ s1 with heap := s1.heap ++ [v0, .vint 42] } : CtxState).heap[s1.heap.length + 1]?).getD .undefined
      = JSVal.vint 42 := by
    show ((s1.heap ++ [v0, .vint 42])[s1.heap.length + 1]?).getD .undefined = JSVal.vint 42
    rw [List.getElem?_append_right (by omega)]
    simp
  have hC : Engine.call_function ops { s1 with heap := s1.heap ++ [v0, .vint 42] }
      "id" [⟨s1.heap.length + 1⟩]
      = ({ s2 with heap := s2.heap ++ [.vint 42] }, .ok ⟨s2.heap.length⟩) := by
    simp only [Engine.call_function, hget]
    rw [restoreArgs_ok _ _ hargs]
    simp only [List.map_cons, List.map_nil, hidx, List.length_cons, List.length_nil,
      Nat.zero_add]
    rw [show ({ s1 with heap := s1.heap ++ [v0, .vint 42] } : CtxState).restores + 1
        = s1.restores + 1 from rfl] at *
    rw [show ({ ({ s1 with heap := s1.heap ++ [v0, .vint 42] } : CtxState) with
        restores := s1.restores + 1 } : CtxState)
        = { s1 with heap := s1.heap ++ [v0, .vint 42], restores := s1.restores + 1 }
      from rfl]
    rw [hcall]
    simp [saveP]
  have hD : (Value.into_string ops { s2 with heap := s2.heap ++ [.vint 42] }
      ⟨s2.heap.length⟩).2 = .ok "42" :=
    into_string_saveP ops s2 (.vint 42) "42" hcoerce
  exact ⟨_, _, _, _, _, _, hA, hB, hC, hD⟩

theorem round_trip_int_42_witness :
    demoOps.evalJs freshCtx "function id(x)\x7breturn x;\x7d"
      = ({ freshCtx with globals := [("id", .vfunc 0)] }, .ok .undefined) ∧
    demoOps.intIntoJs 42 = .ok (.vint 42) ∧
    ∃ sA val0 sB v42 sD ret,
      Engine.eval demoOps freshCtx "function id(x)\x7breturn x;\x7d"
        = (sA, .ok val0) ∧
      Engine.create_int_value demoOps sA 42 = (sB, .ok v42) ∧
      Engine.call_function demoOps sB "id" [v42] = (sD, .ok ret) ∧
      (Value.into_string demoOps sD ret).2 = .ok "42" :=
  ⟨rfl, rfl,
   round_trip_int_42 demoOps freshCtx
     { globals := [("id", .vfunc 0)], heap := [], pending := .undefined,
       restores := 0 }
     { globals := [("id", .vfunc 0)], heap := [.undefined, .vint 42],
       pending := .undefined, restores := 1 }
     .undefined (.vfunc 0) rfl rfl rfl rfl rfl⟩
